import Mathlib

/-!
Shallow embedding of the indexing and retrieval pipeline of
`VirtualRAGModel` (files `populate_db.py` and `query_db.py`), together
with theorems settling the specification claims about it.

Python strings are modelled as Lean `String`, Python `None`-able metadata
fields as `Option`, Python exceptions as an explicit `Except` error type,
and the external Chroma vector store as an id-keyed association list with
upsert semantics (its interface contract).
-/

namespace VirtualRAG

/-- Model of Python `str.split(sep)` for a one-character separator,
working on the character list of the string.  `"".split(c)` yields one
empty component, and `k` separators yield `k + 1` components, exactly as
in Python. -/
def splitChar (c : Char) : List Char → List (List Char)
  | [] => [[]]
  | x :: xs =>
    match splitChar c xs with
    | [] => [[]]
    | y :: ys => if x = c then [] :: y :: ys else (x :: y) :: ys

/-- Fuel-driven decimal digit rendering; with fuel at least the number
being rendered it produces the full decimal digit list. -/
def natStrAux : Nat → Nat → List Char
  | 0, _ => []
  | fuel + 1, n =>
    if n < 10 then [Char.ofNat (48 + n)]
    else natStrAux fuel (n / 10) ++ [Char.ofNat (48 + n % 10)]

/-- Model of Python `str(n)` for a non-negative integer: its decimal
representation. -/
def natStr (n : Nat) : String := String.mk (natStrAux (n + 1) n)

/-- Model of Python `str.join`: `sep.join(parts)` concatenates the parts
with `sep` between consecutive parts, and yields `""` on an empty list. -/
def pyJoin (sep : String) : List String → String
  | [] => ""
  | [x] => x
  | x :: y :: xs => x ++ sep ++ pyJoin sep (y :: xs)

/-- Model of a Python f-string interpolation of a metadata value that is
either an int page number or `None`: `None` renders as the string
`"None"`. -/
def pyStrOptNat : Option Nat → String
  | none => "None"
  | some n => natStr n

/-- The metadata dictionary of a LangChain `Document` chunk, restricted
to the keys the pipeline reads or writes: `source` (the document path),
`page` (the page number) and `id` (set by `calculate_chunk_ids`).
A missing key is `none`. -/
structure Metadata where
  source : Option String
  page : Option Nat
  id : Option String
deriving DecidableEq, Repr

/-- A LangChain `Document` chunk: its text (`page_content`) and its
metadata. -/
structure Chunk where
  pageContent : String
  metadata : Metadata
deriving DecidableEq, Repr

/-- The Python exceptions the embedded code can raise:
`AttributeError` (calling `.split` on `None` when `source` is missing),
`IndexError` (positional index past the end of the split path), and
`KeyError` (reading `metadata['id']` when it was never set). -/
inductive PyError where
  | attributeError
  | indexError
  | keyError
deriving DecidableEq, Repr

/-- The per-chunk key computation of `calculate_chunk_ids`
(`populate_db.py` lines 138-144): split the `source` path on
backslashes (`AttributeError` if `source` is missing), take the
component at index 6 (`IndexError` if there are fewer than seven
components), and form `f"{source}:{page}"` with that component as the
source label. -/
def pageKey (c : Chunk) : Except PyError String :=
  match c.metadata.source with
  | none => .error .attributeError
  | some src =>
    match (splitChar '\\' src.data)[6]? with
    | none => .error .indexError
    | some lab => .ok (String.mk lab ++ ":" ++ pyStrOptNat c.metadata.page)

/-- The id string `f"{current_page_id}:{current_chunk_index}"`
(`populate_db.py` line 152). -/
def encodeId (key : String) (n : Nat) : String := key ++ ":" ++ natStr n

/-- The loop of `calculate_chunk_ids` (`populate_db.py` lines 133-157)
with the two loop variables `last_page_id` and `current_chunk_index`
made explicit: if the page key equals the previous chunk's, the index
increments, otherwise it resets to 0; the chunk's `metadata['id']` is
set to `f"{key}:{index}"`.  The Python in-place mutation of the chunks
is modelled by returning the updated list. -/
def calcAux (last : Option String) (idx : Nat) : List Chunk → Except PyError (List Chunk)
  | [] => .ok []
  | c :: cs => do
    let key ← pageKey c
    let n := if some key = last then idx + 1 else 0
    let c2 : Chunk := { c with metadata := { c.metadata with id := some (encodeId key n) } }
    let rest ← calcAux (some key) n cs
    pure (c2 :: rest)

/-- `calculate_chunk_ids` (`populate_db.py` lines 125-157): assign ids
to the chunks in input order, starting with `last_page_id = None` and
`current_chunk_index = 0`. -/
def calculate_chunk_ids (chunks : List Chunk) : Except PyError (List Chunk) :=
  calcAux none 0 chunks

/-- The page keys of a chunk list, in order (helper for stating
properties of `calculate_chunk_ids`). -/
def keysOf : List Chunk → Except PyError (List String)
  | [] => .ok []
  | c :: cs => do
    let k ← pageKey c
    let ks ← keysOf cs
    pure (k :: ks)

/-- The sequence of `current_chunk_index` values produced by the
`calculate_chunk_ids` loop for a given list of page keys, starting from
state `(last, idx)`. -/
def runIdx (last : Option String) (idx : Nat) : List String → List Nat
  | [] => []
  | k :: ks =>
    let n := if some k = last then idx + 1 else 0
    n :: runIdx (some k) n ks

/-- The id strings `calculate_chunk_ids` assigns, as a function of the
page-key list alone. -/
def idsFromKeys (ks : List String) : List String :=
  (ks.zip (runIdx none 0 ks)).map (fun p => encodeId p.1 p.2)

/-- A key list is grouped when equal keys only occur consecutively:
whenever the keys at positions `i < j < k` have `ks[i] = ks[k]`, the key
at the middle position `j` is the same. -/
def Grouped (ks : List String) : Prop :=
  ∀ k, k < ks.length → ∀ j, j < k → ∀ i, i < j →
    ks[i]? = ks[k]? → ks[j]? = ks[i]?

/-- Model of the external Chroma collection at its interface boundary:
a persistent store of entries keyed by chunk id, kept in insertion
order. -/
abbrev Store := List (String × Chunk)

/-- Upsert of the external Vector Index collaborator, as specified at
its interface boundary: writing under an existing id replaces that
entry, otherwise the entry is appended. -/
def upsert (db : Store) (i : String) (c : Chunk) : Store :=
  if i ∈ db.map Prod.fst then
    db.map (fun e => if e.1 = i then (i, c) else e)
  else
    db ++ [(i, c)]

/-- Model of `db.add_documents(new_chunks, ids=new_chunk_ids)`: upsert
each `(id, chunk)` pair in order. -/
def addDocuments (db : Store) (pairs : List (String × Chunk)) : Store :=
  pairs.foldl (fun d p => upsert d p.1 p.2) db

/-- The filtering loop of `add_to_chroma` (`populate_db.py` lines
112-115): keep the chunks whose `metadata['id']` is not among the
existing ids.  Reading a missing `id` key raises `KeyError`. -/
def selectNew (existing : List String) : List Chunk → Except PyError (List Chunk)
  | [] => .ok []
  | c :: cs =>
    match c.metadata.id with
    | none => .error .keyError
    | some i =>
      (selectNew existing cs).map (fun rest => if i ∈ existing then rest else c :: rest)

/-- The comprehension `[chunk.metadata['id'] for chunk in new_chunks]`
(`populate_db.py` line 119). -/
def getIds : List Chunk → Except PyError (List String)
  | [] => .ok []
  | c :: cs =>
    match c.metadata.id with
    | none => .error .keyError
    | some i => (getIds cs).map (fun rest => i :: rest)

/-- The observable outcome of one `add_to_chroma` call: the store after
the call, the number of chunks added (`len(new_chunks)`), the printed
log lines, and the Python return value of the function — which is
`None`, since `add_to_chroma` has no `return` statement. -/
structure AddResult where
  store : Store
  added : Nat
  logs : List String
  returned : Option Nat
deriving DecidableEq, Repr

/-- `add_to_chroma` (`populate_db.py` lines 93-123): assign chunk ids,
read the set of ids already in the store (`db.get(include=[])`), keep
only the chunks whose id is not already present, and upsert exactly
those (embedding happens inside the external `add_documents`).  The
count of new chunks is printed, not returned. -/
def add_to_chroma (db : Store) (chunks : List Chunk) : Except PyError AddResult :=
  match calculate_chunk_ids chunks with
  | .error e => .error e
  | .ok chunksWithIds =>
    let existingIds := db.map Prod.fst
    let log1 := "Number of existing documents in DB: " ++ natStr existingIds.eraseDups.length
    match selectNew existingIds chunksWithIds with
    | .error e => .error e
    | .ok newChunks =>
      if newChunks.length ≠ 0 then
        match getIds newChunks with
        | .error e => .error e
        | .ok newIds =>
          .ok { store := addDocuments db (newIds.zip newChunks)
                added := newChunks.length
                logs := [log1, "adding new documents: " ++ natStr newChunks.length]
                returned := none }
      else
        .ok { store := db
              added := 0
              logs := [log1, "There are no new documents to add"]
              returned := none }

/-- A document returned by `db.similarity_search_with_score`: its text
and its `metadata.get("id", None)`.  The accompanying relevance score is
destructured away by `query_rag` (never read), so it is not modelled. -/
structure RetrievedDoc where
  pageContent : String
  metaId : Option String
deriving DecidableEq

/-- The literal text of `PROMPT_TEMPLATE` (`query_db.py` lines 27-36)
before the `context` placeholder. -/
def promptTemplateBefore : String :=
  "\nYou are a chatbot named Aero Space The users of this are Systems engineers that are using this for researching Systems Engineering \nprinciples and best practices if no answer is found respond with \"I was not able to find the answer based on the provided context provided\".:\n\n"

/-- The literal text of `PROMPT_TEMPLATE` between the `context` and
`question` placeholders. -/
def promptTemplateBetween : String :=
  "\n\n---\n\nAnswer the questions as systems engineer would based on the above context: "

/-- The literal text of `PROMPT_TEMPLATE` after the `question`
placeholder. -/
def promptTemplateAfter : String := "\n"

/-- Substitution of `context` and `question` into `PROMPT_TEMPLATE`
(`query_db.py` line 57).  The LangChain chat-message wrapper around the
formatted text is an external-library detail and is not modelled. -/
def formatPrompt (context question : String) : String :=
  promptTemplateBefore ++ context ++ promptTemplateBetween ++ question ++ promptTemplateAfter

/-- The separator joined between retrieved chunk texts (`query_db.py`
line 55). -/
def contextSeparator : String := "\n\n---\n\n"

/-- The observable outcome of one `query_rag` call: the assembled
context, the rendered prompt, the generated response as printed, the
printed source-id list, and the Python return value of the function —
the response text alone (`query_db.py` line 68). -/
structure QueryOutput where
  contextText : String
  prompt : String
  response : String
  printedSources : List (Option String)
  returned : String
deriving DecidableEq

/-- `query_rag` (`query_db.py` lines 47-68) with its external
collaborators passed explicitly: `results` is what the similarity
search returned, `generate` is the language model.  The context joins
the result texts in search order; the sources list maps each result to
its `id` metadata in the same order; only the response text is
returned. -/
def query_rag (queryText : String) (results : List RetrievedDoc)
    (generate : String → String) : QueryOutput :=
  let contextText := pyJoin contextSeparator (results.map (fun d => d.pageContent))
  let prompt := formatPrompt contextText queryText
  let responseText := generate prompt
  let sources := results.map (fun d => d.metaId)
  { contextText := contextText
    prompt := prompt
    response := responseText
    printedSources := sources
    returned := responseText }

/-! ### Concrete inputs used in counterexamples and witnesses -/

/-- A chunk as the PDF loader would produce it: text, source path, page
number, no id yet. -/
def mkChunk (t : String) (s : Option String) (p : Option Nat) : Chunk :=
  { pageContent := t, metadata := { source := s, page := p, id := none } }

/-- A Windows-style document path whose seventh backslash-separated
component is `docA`. -/
def srcA : String := "C:\\u\\d\\p\\v\\f\\docA\\x.pdf"

/-- A Windows-style document path whose seventh backslash-separated
component is `docB`. -/
def srcB : String := "C:\\u\\d\\p\\v\\f\\docB\\x.pdf"

/-- A second path in the same directory as `srcA`: a different source
string whose seventh backslash-separated component is also `docA`. -/
def srcA2 : String := "C:\\u\\d\\p\\v\\f\\docA\\y.pdf"

/-- Three chunks in which the `(source, page)` pair `(srcA, 1)` recurs
after an intervening different pair. -/
def chunksABA : List Chunk :=
  [mkChunk "t1" (some srcA) (some 1), mkChunk "t2" (some srcB) (some 1),
   mkChunk "t3" (some srcA) (some 1)]

/-- Three chunks with pairwise-distinct sources — so every
`(source, page)` group is a singleton, trivially one consecutive run —
in which the first and third sources are different files of the same
directory and hence share the seventh path component `docA`. -/
def chunksDistinctSources : List Chunk :=
  [mkChunk "u1" (some srcA) (some 1), mkChunk "u2" (some srcB) (some 1),
   mkChunk "u3" (some srcA2) (some 1)]

/-- The example input of the spec: `[(docA,p1), (docA,p1), (docB,p1),
(docA,p1)]`. -/
def chunksAABA : List Chunk :=
  [mkChunk "t1" (some srcA) (some 1), mkChunk "t2" (some srcA) (some 1),
   mkChunk "t3" (some srcB) (some 1), mkChunk "t4" (some srcA) (some 1)]

/-- Chunks whose `(source, page)` groups are consecutive. -/
def chunksGrouped : List Chunk :=
  [mkChunk "t1" (some srcA) (some 1), mkChunk "t2" (some srcA) (some 1),
   mkChunk "t3" (some srcB) (some 1)]

/-- A chunk with a valid source path but no `page` metadata. -/
def chunkNoPage : Chunk := mkChunk "t1" (some srcA) none

/-- A single well-formed chunk. -/
def chunkOne : Chunk := mkChunk "t1" (some srcA) (some 1)

/-- `chunkOne` after id assignment. -/
def chunkOneWithId : Chunk :=
  { pageContent := "t1"
    metadata := { source := some srcA, page := some 1, id := some "docA:1:0" } }

/-- The store produced by indexing `[chunkOne]` into an empty store. -/
def storeOne : Store := [("docA:1:0", chunkOneWithId)]

/-- A retrieved document with text `"txt"` and id metadata `A:1:0`. -/
def docX : RetrievedDoc := { pageContent := "txt", metaId := some "A:1:0" }

/-- A retrieved document with the same text as `docX` but id metadata
`B:2:0`. -/
def docY : RetrievedDoc := { pageContent := "txt", metaId := some "B:2:0" }

/-- The chunks `add_to_chroma` treats as new, characterized as a pure
filter: those whose assigned id is not among the store's existing ids. -/
def newChunksOf (db : Store) (outs : List Chunk) : List Chunk :=
  outs.filter (fun c => decide (c.metadata.id.getD "" ∉ db.map Prod.fst))

/-- The value `calculate_chunk_ids` produces on `chunksGrouped`. -/
def groupedOut : List Chunk :=
  [{ pageContent := "t1"
     metadata := { source := some srcA, page := some 1, id := some "docA:1:0" } },
   { pageContent := "t2"
     metadata := { source := some srcA, page := some 1, id := some "docA:1:1" } },
   { pageContent := "t3"
     metadata := { source := some srcB, page := some 1, id := some "docB:1:0" } }]

/-- The page keys of `chunksGrouped`. -/
def groupedKs : List String := ["docA:1", "docA:1", "docB:1"]

/-- The value `calculate_chunk_ids` produces on `chunksAABA`. -/
def exOut : List Chunk :=
  [{ pageContent := "t1"
     metadata := { source := some srcA, page := some 1, id := some "docA:1:0" } },
   { pageContent := "t2"
     metadata := { source := some srcA, page := some 1, id := some "docA:1:1" } },
   { pageContent := "t3"
     metadata := { source := some srcB, page := some 1, id := some "docB:1:0" } },
   { pageContent := "t4"
     metadata := { source := some srcA, page := some 1, id := some "docA:1:0" } }]

/-- The page keys of `chunksAABA`. -/
def exKs : List String := ["docA:1", "docA:1", "docB:1", "docA:1"]

/-- The outcome of indexing `[chunkOne]` into an empty store. -/
def addResult1 : AddResult :=
  { store := storeOne
    added := 1
    logs := ["Number of existing documents in DB: 0", "adding new documents: 1"]
    returned := none }

/-- The outcome of indexing `[chunkOne]` a second time, against
`storeOne`. -/
def addResult2 : AddResult :=
  { store := storeOne
    added := 0
    logs := ["Number of existing documents in DB: 1", "There are no new documents to add"]
    returned := none }

/-! ### Properties of the decimal rendering -/

theorem natStrAux_succ (f n : Nat) :
    natStrAux (f + 1) n =
      if n < 10 then [Char.ofNat (48 + n)]
      else natStrAux f (n / 10) ++ [Char.ofNat (48 + n % 10)] := rfl

theorem natStrAux_fuel_eq : ∀ f g n : Nat, n ≤ f → n ≤ g →
    natStrAux (f + 1) n = natStrAux (g + 1) n := by
  intro f
  induction f with
  | zero =>
    intro g n hf _
    interval_cases n
    rw [natStrAux_succ 0 0, natStrAux_succ g 0]
    simp
  | succ f ih =>
    intro g n hf hg
    by_cases h10 : n < 10
    · rw [natStrAux_succ (f + 1) n, natStrAux_succ g n, if_pos h10, if_pos h10]
    · have hdiv : n / 10 < n := Nat.div_lt_self (by omega) (by omega)
      obtain ⟨g', rfl⟩ : ∃ g', g = g' + 1 := ⟨g - 1, by omega⟩
      rw [natStrAux_succ (f + 1) n, natStrAux_succ (g' + 1) n, if_neg h10, if_neg h10,
        ih g' (n / 10) (by omega) (by omega)]

theorem natStrAux_ne_nil (f n : Nat) : natStrAux (f + 1) n ≠ [] := by
  rw [natStrAux_succ f n]
  by_cases h10 : n < 10 <;> simp [h10]

theorem colon_not_mem_natStrAux : ∀ f n : Nat, ':' ∉ natStrAux f n := by
  intro f
  induction f with
  | zero => intro n; simp [natStrAux]
  | succ f ih =>
    intro n
    rw [natStrAux_succ f n]
    by_cases h10 : n < 10
    · simp only [if_pos h10, List.mem_singleton]
      intro h
      interval_cases n <;> exact absurd h.symm (by decide)
    · simp only [if_neg h10, List.mem_append, List.mem_singleton]
      rintro (h | h)
      · exact ih _ h
      · have hm : n % 10 < 10 := Nat.mod_lt _ (by omega)
        set m := n % 10 with hmdef
        interval_cases m <;> exact absurd h.symm (by decide)

theorem digitChar_inj (a b : Nat) (ha : a < 10) (hb : b < 10)
    (h : Char.ofNat (48 + a) = Char.ofNat (48 + b)) : a = b := by
  interval_cases a <;> interval_cases b <;> first | rfl | (exact absurd h (by decide))

theorem natStrAux_two_le_length (f n : Nat) (h10 : 10 ≤ n) (hf : n ≤ f) :
    2 ≤ (natStrAux (f + 1) n).length := by
  obtain ⟨f', rfl⟩ : ∃ f', f = f' + 1 := ⟨f - 1, by omega⟩
  rw [natStrAux_succ (f' + 1) n, if_neg (by omega : ¬ n < 10)]
  have hne := natStrAux_ne_nil f' (n / 10)
  cases hx : natStrAux (f' + 1) (n / 10) with
  | nil => exact absurd hx hne
  | cons y ys => simp

theorem natStrAux_inj : ∀ f₁ n₁ f₂ n₂ : Nat, n₁ ≤ f₁ → n₂ ≤ f₂ →
    natStrAux (f₁ + 1) n₁ = natStrAux (f₂ + 1) n₂ → n₁ = n₂ := by
  intro f₁
  induction f₁ with
  | zero =>
    intro n₁ f₂ n₂ h₁ h₂ h
    interval_cases n₁
    by_cases h10 : n₂ < 10
    · rw [natStrAux_succ 0 0, natStrAux_succ f₂ n₂, if_pos h10,
        if_pos (by omega : (0 : Nat) < 10)] at h
      simp only [List.cons.injEq, and_true] at h
      exact digitChar_inj 0 n₂ (by omega) h10 h
    · have hlen := natStrAux_two_le_length f₂ n₂ (by omega) h₂
      rw [← h, natStrAux_succ 0 0, if_pos (by omega : (0 : Nat) < 10)] at hlen
      simp at hlen
  | succ f₁ ih =>
    intro n₁ f₂ n₂ h₁ h₂ h
    by_cases ha : n₁ < 10 <;> by_cases hb : n₂ < 10
    · rw [natStrAux_succ (f₁ + 1) n₁, natStrAux_succ f₂ n₂, if_pos ha, if_pos hb] at h
      simp only [List.cons.injEq, and_true] at h
      exact digitChar_inj n₁ n₂ ha hb h
    · have hlen := natStrAux_two_le_length f₂ n₂ (by omega) h₂
      rw [← h, natStrAux_succ (f₁ + 1) n₁, if_pos ha] at hlen
      simp at hlen
    · have hlen := natStrAux_two_le_length (f₁ + 1) n₁ (by omega) h₁
      rw [h, natStrAux_succ f₂ n₂, if_pos hb] at hlen
      simp at hlen
    · obtain ⟨f₂', rfl⟩ : ∃ f', f₂ = f' + 1 := ⟨f₂ - 1, by omega⟩
      rw [natStrAux_succ (f₁ + 1) n₁, natStrAux_succ (f₂' + 1) n₂, if_neg ha, if_neg hb] at h
      obtain ⟨heq, hdig⟩ := List.append_inj' h (by rfl)
      simp only [List.cons.injEq, and_true] at hdig
      have hm1 : n₁ % 10 < 10 := Nat.mod_lt _ (by omega)
      have hm2 : n₂ % 10 < 10 := Nat.mod_lt _ (by omega)
      have hmod : n₁ % 10 = n₂ % 10 := digitChar_inj _ _ hm1 hm2 hdig
      have hd1 : n₁ / 10 < n₁ := Nat.div_lt_self (by omega) (by omega)
      have hd2 : n₂ / 10 < n₂ := Nat.div_lt_self (by omega) (by omega)
      have hdiv : n₁ / 10 = n₂ / 10 :=
        ih (n₁ / 10) f₂' (n₂ / 10) (by omega) (by omega) heq
      omega

theorem natStr_inj (a b : Nat) (h : natStr a = natStr b) : a = b := by
  have hd : natStrAux (a + 1) a = natStrAux (b + 1) b := by
    have := congrArg String.data h
    simpa [natStr] using this
  exact natStrAux_inj a a b b (le_refl a) (le_refl b) hd

theorem colon_not_mem_natStr (n : Nat) : ':' ∉ (natStr n).data :=
  colon_not_mem_natStrAux (n + 1) n

/-! ### The id encoding is injective -/

theorem split_first_colon : ∀ u v x y : List Char, ':' ∉ u → ':' ∉ v →
    u ++ ':' :: x = v ++ ':' :: y → u = v ∧ x = y := by
  intro u
  induction u with
  | nil =>
    intro v x y _ hv h
    cases v with
    | nil => simpa using h
    | cons b bs =>
      simp only [List.nil_append, List.cons_append, List.cons.injEq] at h
      exact absurd (h.1 ▸ List.mem_cons_self b bs) hv
  | cons a as ih =>
    intro v x y hu hv h
    cases v with
    | nil =>
      simp only [List.nil_append, List.cons_append, List.cons.injEq] at h
      exact absurd (h.1 ▸ List.mem_cons_self a as) hu
    | cons b bs =>
      simp only [List.cons_append, List.cons.injEq] at h
      obtain ⟨rfl, h2⟩ := h
      have := ih bs x y (fun hm => hu (List.mem_cons_of_mem a hm))
        (fun hm => hv (List.mem_cons_of_mem a hm)) h2
      exact ⟨by rw [this.1], this.2⟩

theorem encodeId_inj (k₁ k₂ : String) (n₁ n₂ : Nat)
    (h : encodeId k₁ n₁ = encodeId k₂ n₂) : k₁ = k₂ ∧ n₁ = n₂ := by
  have hd : k₁.data ++ ':' :: (natStr n₁).data = k₂.data ++ ':' :: (natStr n₂).data := by
    have := congrArg String.data h
    simpa [encodeId, String.data_append] using this
  have hrev : (natStr n₁).data.reverse ++ ':' :: k₁.data.reverse
      = (natStr n₂).data.reverse ++ ':' :: k₂.data.reverse := by
    have := congrArg List.reverse hd
    simpa [List.reverse_append, List.append_assoc] using this
  have hs := split_first_colon _ _ _ _
    (fun hm => colon_not_mem_natStr n₁ (List.mem_reverse.mp hm))
    (fun hm => colon_not_mem_natStr n₂ (List.mem_reverse.mp hm)) hrev
  have hk : k₁ = k₂ := by
    apply String.ext
    have := congrArg List.reverse hs.2
    simpa using this
  refine ⟨hk, natStr_inj n₁ n₂ ?_⟩
  apply String.ext
  have := congrArg List.reverse hs.1
  simpa using this

theorem encodePair_inj : Function.Injective (fun p : String × Nat => encodeId p.1 p.2) := by
  intro p q h
  obtain ⟨h1, h2⟩ := encodeId_inj p.1 q.1 p.2 q.2 h
  exact Prod.ext h1 h2

/-! ### The run-index sequence -/

theorem runIdx_length (ks : List String) : ∀ last idx, (runIdx last idx ks).length = ks.length := by
  induction ks with
  | nil => intro last idx; rfl
  | cons k ks ih => intro last idx; simp [runIdx, ih]

theorem runIdx_run (ks : List String) : ∀ (k : String) (idx j : Nat),
    (∀ m : Nat, m ≤ j → ks[m]? = some k) →
    (runIdx (some k) idx ks)[j]? = some (idx + j + 1) := by
  induction ks with
  | nil =>
    intro k idx j h
    have := h j (le_refl j)
    simp at this
  | cons k0 ks ih =>
    intro k idx j h
    have h0 := h 0 (Nat.zero_le j)
    simp only [List.getElem?_cons_zero, Option.some.injEq] at h0
    subst h0
    rw [show runIdx (some k0) idx (k0 :: ks)
      = (idx + 1) :: runIdx (some k0) (idx + 1) ks from by simp [runIdx]]
    cases j with
    | zero => simp
    | succ j' =>
      simp only [List.getElem?_cons_succ]
      have := ih k0 (idx + 1) j' (fun m hm => by
        have := h (m + 1) (by omega)
        simpa using this)
      rw [this]
      congr 1
      omega

theorem grouped_tail (k : String) (ks : List String) (hg : Grouped (k :: ks)) :
    Grouped ks := by
  intro kk hkk j hj i hi hik
  have hik2 : (k :: ks)[i + 1]? = (k :: ks)[kk + 1]? := by simpa using hik
  have := hg (kk + 1) (by simpa using Nat.succ_lt_succ hkk) (j + 1)
    (by omega) (i + 1) (by omega) hik2
  simpa using this

theorem grouped_run_closed (k : String) (ks : List String) (hg : Grouped (k :: ks)) :
    ∀ j m : Nat, m ≤ j → ks[j]? = some k → ks[m]? = some k := by
  intro j m hmj hj
  rcases Nat.eq_or_lt_of_le hmj with rfl | hlt
  · exact hj
  · have hjlen : j < ks.length := (List.getElem?_eq_some.mp hj).1
    have h0 : (k :: ks)[0]? = some k := by simp
    have hk1 : (k :: ks)[j + 1]? = some k := by simpa using hj
    have := hg (j + 1) (by simpa using Nat.succ_lt_succ hjlen) (m + 1)
      (by omega) 0 (by omega) (h0.trans hk1.symm)
    simp only [List.getElem?_cons_succ] at this
    rw [this, h0]

theorem zip_runIdx_nodup : ∀ (ks : List String) (last : Option String) (idx : Nat),
    Grouped ks →
    (∀ s : String, last = some s →
      ∀ j m : Nat, m ≤ j → ks[j]? = some s → ks[m]? = some s) →
    (ks.zip (runIdx last idx ks)).Nodup := by
  intro ks
  induction ks with
  | nil => intro last idx _ _; simp
  | cons k ks ih =>
    intro last idx hg hpast
    have hunfold : runIdx last idx (k :: ks)
        = (if some k = last then idx + 1 else 0)
          :: runIdx (some k) (if some k = last then idx + 1 else 0) ks := by
      simp [runIdx]
    rw [hunfold]
    set n : Nat := if some k = last then idx + 1 else 0 with hn
    simp only [List.zip_cons_cons, List.nodup_cons]
    constructor
    · intro hmem
      obtain ⟨i, hi, hieq⟩ := List.getElem_of_mem hmem
      have hil : i < ks.length ∧ i < (runIdx (some k) n ks).length := by
        simp only [List.length_zip] at hi
        omega
      rw [List.getElem_zip] at hieq
      have hks : ks[i]? = some k := by
        rw [List.getElem?_eq_getElem hil.1]
        have := congrArg Prod.fst hieq
        simpa using this
      have hidx := runIdx_run ks k n i
        (fun m hm => grouped_run_closed k ks hg i m hm hks)
      rw [List.getElem?_eq_getElem hil.2] at hidx
      have hsnd := congrArg Prod.snd hieq
      simp only at hsnd
      rw [hsnd] at hidx
      simp only [Option.some.injEq] at hidx
      omega
    · exact ih (some k) n (grouped_tail k ks hg)
        (fun s hs j m hmj hj => by
          cases hs
          exact grouped_run_closed k ks hg j m hmj hj)

theorem idsFromKeys_nodup (ks : List String) (hg : Grouped ks) :
    (idsFromKeys ks).Nodup := by
  apply List.Nodup.map encodePair_inj
  exact zip_runIdx_nodup ks none 0 hg (fun s hs => nomatch hs)

/-! ### Linking the id-assignment loop to its key/index decomposition -/

theorem except_bind_ok {ε α β : Type} (a : α) (f : α → Except ε β) :
    (Except.ok a : Except ε α) >>= f = f a := rfl

theorem except_bind_error {ε α β : Type} (e : ε) (f : α → Except ε β) :
    (Except.error e : Except ε α) >>= f = Except.error e := rfl

theorem except_map_ok {ε α β : Type} (a : α) (f : α → β) :
    f <$> (Except.ok a : Except ε α) = Except.ok (f a) := rfl

theorem except_map_error {ε α β : Type} (e : ε) (f : α → β) :
    f <$> (Except.error e : Except ε α) = Except.error e := rfl

theorem exceptMap_ok {ε α β : Type} (a : α) (f : α → β) :
    Except.map f (Except.ok a : Except ε α) = Except.ok (f a) := rfl

theorem exceptMap_error {ε α β : Type} (e : ε) (f : α → β) :
    Except.map f (Except.error e : Except ε α) = Except.error e := rfl

theorem calcAux_cons (c : Chunk) (cs : List Chunk) (last : Option String) (idx : Nat) :
    calcAux last idx (c :: cs)
      = (pageKey c) >>= fun key =>
          (fun rest =>
            ({ c with metadata := { c.metadata with
                id := some (encodeId key (if some key = last then idx + 1 else 0)) } } : Chunk)
              :: rest)
            <$> calcAux (some key) (if some key = last then idx + 1 else 0) cs := rfl

theorem keysOf_cons (c : Chunk) (cs : List Chunk) :
    keysOf (c :: cs)
      = (pageKey c) >>= fun k => (fun ks => k :: ks) <$> keysOf cs := rfl

theorem calcAux_ids : ∀ (cs : List Chunk) (last : Option String) (idx : Nat)
    (out : List Chunk), calcAux last idx cs = .ok out →
    ∃ ks : List String, keysOf cs = .ok ks ∧
      out.map (fun c => c.metadata.id)
        = ((ks.zip (runIdx last idx ks)).map (fun p => encodeId p.1 p.2)).map some := by
  intro cs
  induction cs with
  | nil =>
    intro last idx out h
    simp only [calcAux] at h
    cases h
    exact ⟨[], rfl, by simp [runIdx]⟩
  | cons c cs ih =>
    intro last idx out h
    rw [calcAux_cons] at h
    cases hk : pageKey c with
    | error e => rw [hk, except_bind_error] at h; exact absurd h (by simp)
    | ok key =>
      rw [hk, except_bind_ok] at h
      cases hr : calcAux (some key) (if some key = last then idx + 1 else 0) cs with
      | error e => rw [hr, except_map_error] at h; exact absurd h (by simp)
      | ok rest =>
        rw [hr, except_map_ok] at h
        simp only [Except.ok.injEq] at h
        obtain ⟨ks, hks, hid⟩ := ih (some key) (if some key = last then idx + 1 else 0) rest hr
        refine ⟨key :: ks, by rw [keysOf_cons, hk, except_bind_ok, hks, except_map_ok], ?_⟩
        rw [← h]
        have hru : runIdx last idx (key :: ks)
            = (if some key = last then idx + 1 else 0)
              :: runIdx (some key) (if some key = last then idx + 1 else 0) ks := by
          simp [runIdx]
        rw [hru]
        simp only [List.map_cons, List.zip_cons_cons, hid]

theorem runIdx_succ (ks : List String) : ∀ (last : Option String) (idx i : Nat),
    i + 1 < ks.length →
    (runIdx last idx ks)[i + 1]?
      = some (if ks[i + 1]? = ks[i]? then ((runIdx last idx ks)[i]?).getD 0 + 1 else 0) := by
  induction ks with
  | nil => intro last idx i h; simp at h
  | cons k ks ih =>
    intro last idx i h
    have hru : runIdx last idx (k :: ks)
        = (if some k = last then idx + 1 else 0)
          :: runIdx (some k) (if some k = last then idx + 1 else 0) ks := by
      simp [runIdx]
    rw [hru]
    set n : Nat := if some k = last then idx + 1 else 0 with hn
    cases i with
    | zero =>
      simp only [List.length_cons] at h
      cases ks with
      | nil => simp at h
      | cons k1 ks1 =>
        have hru1 : runIdx (some k) n (k1 :: ks1)
            = (if some k1 = some k then n + 1 else 0)
              :: runIdx (some k1) (if some k1 = some k then n + 1 else 0) ks1 := by
          simp [runIdx]
        simp only [List.getElem?_cons_succ, List.getElem?_cons_zero, hru1]
        by_cases hkk : k1 = k
        · simp [hkk]
        · simp [hkk, Option.some.injEq]
    | succ i' =>
      simp only [List.getElem?_cons_succ]
      have := ih (some k) n i' (by simp at h; omega)
      rw [this]

/-! ### Re-running id assignment on its own output -/

theorem pageKey_set_id (c : Chunk) (v : Option String) :
    pageKey { c with metadata := { c.metadata with id := v } } = pageKey c := rfl

theorem calcAux_idem : ∀ (cs : List Chunk) (last : Option String) (idx : Nat)
    (out : List Chunk), calcAux last idx cs = .ok out →
    calcAux last idx out = .ok out := by
  intro cs
  induction cs with
  | nil =>
    intro last idx out h
    simp only [calcAux] at h
    cases h
    rfl
  | cons c cs ih =>
    intro last idx out h
    rw [calcAux_cons] at h
    cases hk : pageKey c with
    | error e => rw [hk, except_bind_error] at h; exact absurd h (by simp)
    | ok key =>
      rw [hk, except_bind_ok] at h
      cases hr : calcAux (some key) (if some key = last then idx + 1 else 0) cs with
      | error e => rw [hr, except_map_error] at h; exact absurd h (by simp)
      | ok rest =>
        rw [hr, except_map_ok] at h
        simp only [Except.ok.injEq] at h
        have hrest := ih (some key) (if some key = last then idx + 1 else 0) rest hr
        rw [← h, calcAux_cons, pageKey_set_id, hk, except_bind_ok, hrest, except_map_ok]

/-! ### Store lemmas -/

theorem upsert_map_fst (db : Store) (i : String) (c : Chunk) :
    (upsert db i c).map Prod.fst
      = if i ∈ db.map Prod.fst then db.map Prod.fst else db.map Prod.fst ++ [i] := by
  unfold upsert
  by_cases h : i ∈ db.map Prod.fst
  · rw [if_pos h, if_pos h, List.map_map]
    apply List.map_congr_left
    intro e _
    by_cases he : e.1 = i <;> simp [he]
  · rw [if_neg h, if_neg h]
    simp

theorem mem_upsert_fst (db : Store) (i j : String) (c : Chunk)
    (h : j ∈ db.map Prod.fst ∨ j = i) : j ∈ (upsert db i c).map Prod.fst := by
  rw [upsert_map_fst]
  by_cases hm : i ∈ db.map Prod.fst
  · rw [if_pos hm]
    rcases h with h | rfl
    · exact h
    · exact hm
  · rw [if_neg hm]
    rcases h with h | rfl
    · exact List.mem_append_left _ h
    · exact List.mem_append_right _ (List.mem_singleton.mpr rfl)

theorem upsert_nodup_fst (db : Store) (i : String) (c : Chunk)
    (h : (db.map Prod.fst).Nodup) : ((upsert db i c).map Prod.fst).Nodup := by
  rw [upsert_map_fst]
  by_cases hm : i ∈ db.map Prod.fst
  · rw [if_pos hm]; exact h
  · rw [if_neg hm]
    exact h.append (List.nodup_singleton i) (List.disjoint_singleton.mpr hm)

theorem addDocuments_mem_fst : ∀ (pairs : List (String × Chunk)) (db : Store) (j : String),
    (j ∈ db.map Prod.fst ∨ ∃ c : Chunk, (j, c) ∈ pairs) →
    j ∈ (addDocuments db pairs).map Prod.fst := by
  intro pairs
  induction pairs with
  | nil =>
    intro db j h
    rcases h with h | ⟨c, hc⟩
    · exact h
    · simp at hc
  | cons p ps ih =>
    intro db j h
    show j ∈ (addDocuments (upsert db p.1 p.2) ps).map Prod.fst
    apply ih
    rcases h with h | ⟨c, hc⟩
    · exact Or.inl (mem_upsert_fst db p.1 j p.2 (Or.inl h))
    · rcases List.mem_cons.mp hc with heq | hm
      · left
        apply mem_upsert_fst db p.1 j p.2
        right
        rw [← heq]
      · exact Or.inr ⟨c, hm⟩

theorem addDocuments_nodup_fst : ∀ (pairs : List (String × Chunk)) (db : Store),
    (db.map Prod.fst).Nodup → ((addDocuments db pairs).map Prod.fst).Nodup := by
  intro pairs
  induction pairs with
  | nil => intro db h; exact h
  | cons p ps ih =>
    intro db h
    exact ih (upsert db p.1 p.2) (upsert_nodup_fst db p.1 p.2 h)

/-! ### Lemmas about the new-chunk selection -/

theorem selectNew_cover : ∀ (existing : List String) (cs out : List Chunk),
    selectNew existing cs = .ok out →
    ∀ c ∈ cs, ∃ i : String, c.metadata.id = some i ∧ (i ∈ existing ∨ c ∈ out) := by
  intro existing cs
  induction cs with
  | nil => intro out _ c hc; simp at hc
  | cons c0 cs ih =>
    intro out h c hc
    cases hid : c0.metadata.id with
    | none => simp [selectNew, hid] at h
    | some i0 =>
      simp only [selectNew, hid] at h
      cases hr : selectNew existing cs with
      | error e => rw [hr, exceptMap_error] at h; exact absurd h (by simp)
      | ok rest =>
        rw [hr, exceptMap_ok] at h
        simp only [Except.ok.injEq] at h
        rcases List.mem_cons.mp hc with rfl | hm
        · refine ⟨i0, hid, ?_⟩
          by_cases he : i0 ∈ existing
          · exact Or.inl he
          · right
            rw [← h, if_neg he]
            exact List.mem_cons_self _ _
        · obtain ⟨i, hi, hor⟩ := ih rest hr c hm
          refine ⟨i, hi, ?_⟩
          rcases hor with hor | hor
          · exact Or.inl hor
          · right
            rw [← h]
            by_cases he : i0 ∈ existing
            · rw [if_pos he]; exact hor
            · rw [if_neg he]; exact List.mem_cons_of_mem _ hor

theorem selectNew_all_present : ∀ (existing : List String) (cs : List Chunk),
    (∀ c ∈ cs, ∃ i : String, c.metadata.id = some i ∧ i ∈ existing) →
    selectNew existing cs = .ok [] := by
  intro existing cs
  induction cs with
  | nil => intro _; rfl
  | cons c0 cs ih =>
    intro h
    obtain ⟨i, hi, hmem⟩ := h c0 (List.mem_cons_self _ _)
    simp only [selectNew, hi]
    rw [ih (fun c hc => h c (List.mem_cons_of_mem _ hc)), exceptMap_ok, if_pos hmem]

theorem selectNew_filter : ∀ (existing : List String) (cs out : List Chunk),
    selectNew existing cs = .ok out →
    out = cs.filter (fun c => decide (c.metadata.id.getD "" ∉ existing)) := by
  intro existing cs
  induction cs with
  | nil =>
    intro out h
    simp only [selectNew] at h
    cases h
    rfl
  | cons c0 cs ih =>
    intro out h
    cases hid : c0.metadata.id with
    | none => simp [selectNew, hid] at h
    | some i0 =>
      simp only [selectNew, hid] at h
      cases hr : selectNew existing cs with
      | error e => rw [hr, exceptMap_error] at h; exact absurd h (by simp)
      | ok rest =>
        rw [hr, exceptMap_ok] at h
        simp only [Except.ok.injEq] at h
        rw [← h, ih rest hr]
        by_cases he : i0 ∈ existing
        · rw [if_pos he]
          rw [List.filter_cons_of_neg (by simp [hid, he])]
        · rw [if_neg he]
          rw [List.filter_cons_of_pos (by simp [hid, he])]

theorem getIds_zip : ∀ (cs : List Chunk) (ids : List String),
    getIds cs = .ok ids →
    ids.length = cs.length ∧
    ∀ c ∈ cs, ∃ i : String, c.metadata.id = some i ∧ (i, c) ∈ ids.zip cs := by
  intro cs
  induction cs with
  | nil =>
    intro ids h
    simp only [getIds] at h
    cases h
    exact ⟨rfl, by simp⟩
  | cons c0 cs ih =>
    intro ids h
    cases hid : c0.metadata.id with
    | none => simp [getIds, hid] at h
    | some i0 =>
      simp only [getIds, hid] at h
      cases hr : getIds cs with
      | error e => rw [hr, exceptMap_error] at h; exact absurd h (by simp)
      | ok rest =>
        rw [hr, exceptMap_ok] at h
        simp only [Except.ok.injEq] at h
        obtain ⟨hlen, hmem⟩ := ih rest hr
        subst h
        refine ⟨by simp [hlen], ?_⟩
        intro c hc
        rcases List.mem_cons.mp hc with rfl | hm
        · exact ⟨i0, hid, by simp⟩
        · obtain ⟨i, hi, hz⟩ := hmem c hm
          exact ⟨i, hi, by simp [List.zip_cons_cons]; right; exact hz⟩

theorem calcAux_id_some : ∀ (cs : List Chunk) (last : Option String) (idx : Nat)
    (out : List Chunk), calcAux last idx cs = .ok out →
    ∀ c ∈ out, ∃ i : String, c.metadata.id = some i := by
  intro cs
  induction cs with
  | nil =>
    intro last idx out h c hc
    simp only [calcAux] at h
    cases h
    simp at hc
  | cons c0 cs ih =>
    intro last idx out h c hc
    rw [calcAux_cons] at h
    cases hk : pageKey c0 with
    | error e => rw [hk, except_bind_error] at h; exact absurd h (by simp)
    | ok key =>
      rw [hk, except_bind_ok] at h
      cases hr : calcAux (some key) (if some key = last then idx + 1 else 0) cs with
      | error e => rw [hr, except_map_error] at h; exact absurd h (by simp)
      | ok rest =>
        rw [hr, except_map_ok] at h
        simp only [Except.ok.injEq] at h
        rw [← h] at hc
        rcases List.mem_cons.mp hc with rfl | hm
        · exact ⟨encodeId key (if some key = last then idx + 1 else 0), rfl⟩
        · exact ih (some key) _ rest hr c hm

/-! ### Analysis of one add_to_chroma call -/

theorem add_to_chroma_ok_elim (db : Store) (cs : List Chunk) (a : AddResult)
    (h : add_to_chroma db cs = .ok a) :
    ∃ (outs newChunks : List Chunk),
      calculate_chunk_ids cs = .ok outs ∧
      selectNew (db.map Prod.fst) outs = .ok newChunks ∧
      a.added = newChunks.length ∧
      a.returned = none ∧
      a.logs = ["Number of existing documents in DB: "
                  ++ natStr ((db.map Prod.fst).eraseDups).length,
                if newChunks.length ≠ 0 then "adding new documents: " ++ natStr newChunks.length
                else "There are no new documents to add"] ∧
      ((newChunks = [] ∧ a.store = db) ∨
        ∃ ids : List String, getIds newChunks = .ok ids ∧
          a.store = addDocuments db (ids.zip newChunks)) := by
  unfold add_to_chroma at h
  cases hc : calculate_chunk_ids cs with
  | error e => rw [hc] at h; exact absurd h (by simp)
  | ok outs =>
    rw [hc] at h
    simp only at h
    cases hs : selectNew (db.map Prod.fst) outs with
    | error e => rw [hs] at h; exact absurd h (by simp)
    | ok newChunks =>
      rw [hs] at h
      simp only at h
      by_cases hlen : newChunks.length ≠ 0
      · rw [if_pos hlen] at h
        cases hg : getIds newChunks with
        | error e => rw [hg] at h; exact absurd h (by simp)
        | ok ids =>
          rw [hg] at h
          simp only [Except.ok.injEq] at h
          refine ⟨outs, newChunks, rfl, hs, ?_, ?_, ?_, Or.inr ⟨ids, hg, ?_⟩⟩ <;>
            rw [← h]
          rw [if_pos hlen]
      · rw [if_neg hlen] at h
        simp only [Except.ok.injEq] at h
        refine ⟨outs, newChunks, rfl, hs, ?_, ?_, ?_, Or.inl ⟨?_, ?_⟩⟩
        · rw [← h]
          simp only []
          omega
        · rw [← h]
        · rw [← h, if_neg hlen]
        · simpa using hlen
        · rw [← h]

theorem add_to_chroma_nodup (db : Store) (cs : List Chunk) (a : AddResult)
    (hnd : (db.map Prod.fst).Nodup) (h : add_to_chroma db cs = .ok a) :
    (a.store.map Prod.fst).Nodup := by
  obtain ⟨outs, newChunks, _, _, _, _, _, hdisj⟩ := add_to_chroma_ok_elim db cs a h
  rcases hdisj with ⟨_, hst⟩ | ⟨ids, _, hst⟩
  · rw [hst]; exact hnd
  · rw [hst]; exact addDocuments_nodup_fst _ db hnd

theorem add_to_chroma_covers (db : Store) (cs : List Chunk) (a : AddResult)
    (outs : List Chunk) (h : add_to_chroma db cs = .ok a)
    (hc : calculate_chunk_ids cs = .ok outs) :
    ∀ c ∈ outs, ∃ i : String, c.metadata.id = some i ∧ i ∈ a.store.map Prod.fst := by
  obtain ⟨outs2, newChunks, hc2, hs, _, _, _, hdisj⟩ := add_to_chroma_ok_elim db cs a h
  rw [hc] at hc2
  have houts : outs2 = outs := by injection hc2.symm
  subst houts
  intro c hcm
  obtain ⟨i, hi, hor⟩ := selectNew_cover (db.map Prod.fst) outs2 newChunks hs c hcm
  rcases hdisj with ⟨hempty, hst⟩ | ⟨ids, hg, hst⟩
  · rcases hor with hmem | hmem
    · exact ⟨i, hi, hst ▸ hmem⟩
    · rw [hempty] at hmem; simp at hmem
  · rcases hor with hmem | hmem
    · exact ⟨i, hi, hst ▸ addDocuments_mem_fst (ids.zip newChunks) db i (Or.inl hmem)⟩
    · obtain ⟨_, hz⟩ := getIds_zip newChunks ids hg
      obtain ⟨i2, hi2, hzm⟩ := hz c hmem
      have : i2 = i := by rw [hi] at hi2; injection hi2.symm
      subst this
      exact ⟨i2, hi, hst ▸ addDocuments_mem_fst (ids.zip newChunks) db i2 (Or.inr ⟨c, hzm⟩)⟩

/-! ### Remaining helper lemmas -/

theorem getIds_zip_eq : ∀ (cs : List Chunk) (ids : List String),
    getIds cs = .ok ids →
    ids.zip cs = cs.map (fun c => (c.metadata.id.getD "", c)) := by
  intro cs
  induction cs with
  | nil =>
    intro ids h
    simp only [getIds] at h
    cases h
    rfl
  | cons c0 cs ih =>
    intro ids h
    cases hid : c0.metadata.id with
    | none => simp [getIds, hid] at h
    | some i0 =>
      simp only [getIds, hid] at h
      cases hr : getIds cs with
      | error e => rw [hr, exceptMap_error] at h; exact absurd h (by simp)
      | ok rest =>
        rw [hr, exceptMap_ok] at h
        simp only [Except.ok.injEq] at h
        subst h
        simp only [List.zip_cons_cons, List.map_cons, hid, Option.getD_some]
        rw [ih rest hr]

theorem pageKey_ok_iff (c : Chunk) :
    (∃ k : String, pageKey c = .ok k)
      ↔ ∃ s : String, c.metadata.source = some s
          ∧ 7 ≤ (splitChar '\\' s.data).length := by
  unfold pageKey
  cases hsrc : c.metadata.source with
  | none => simp
  | some s =>
    simp only [Option.some.injEq]
    cases hl : (splitChar '\\' s.data)[6]? with
    | none =>
      have hlen : (splitChar '\\' s.data).length ≤ 6 := by
        by_contra hcon
        rw [List.getElem?_eq_getElem (by omega)] at hl
        exact absurd hl (by simp)
      constructor
      · rintro ⟨k, hk⟩
        exact absurd hk (by simp)
      · rintro ⟨s2, rfl, hs2⟩
        omega
    | some lab =>
      have hlen : 6 < (splitChar '\\' s.data).length :=
        (List.getElem?_eq_some.mp hl).1
      constructor
      · rintro ⟨k, _⟩
        exact ⟨s, rfl, by omega⟩
      · rintro ⟨s2, rfl, _⟩
        exact ⟨_, rfl⟩

theorem calcAux_ok_iff : ∀ (cs : List Chunk) (last : Option String) (idx : Nat),
    (∃ out : List Chunk, calcAux last idx cs = .ok out)
      ↔ ∀ c ∈ cs, ∃ k : String, pageKey c = .ok k := by
  intro cs
  induction cs with
  | nil =>
    intro last idx
    exact ⟨fun _ => by simp, fun _ => ⟨[], rfl⟩⟩
  | cons c0 cs ih =>
    intro last idx
    constructor
    · rintro ⟨out, h⟩
      rw [calcAux_cons] at h
      cases hk : pageKey c0 with
      | error e => rw [hk, except_bind_error] at h; exact absurd h (by simp)
      | ok key =>
        rw [hk, except_bind_ok] at h
        cases hr : calcAux (some key) (if some key = last then idx + 1 else 0) cs with
        | error e => rw [hr, except_map_error] at h; exact absurd h (by simp)
        | ok rest =>
          intro c hc
          rcases List.mem_cons.mp hc with rfl | hm
          · exact ⟨key, hk⟩
          · exact ((ih (some key) (if some key = last then idx + 1 else 0)).mp
              ⟨rest, hr⟩) c hm
    · intro h
      obtain ⟨key, hk⟩ := h c0 (List.mem_cons_self _ _)
      obtain ⟨rest, hr⟩ := (ih (some key) (if some key = last then idx + 1 else 0)).mpr
        (fun c hc => h c (List.mem_cons_of_mem _ hc))
      exact ⟨_, by rw [calcAux_cons, hk, except_bind_ok, hr, except_map_ok]⟩

theorem runIdx_zero (k : String) (ks : List String) :
    (runIdx none 0 (k :: ks))[0]? = some 0 := by
  have : runIdx none 0 (k :: ks)
      = (if some k = none then 0 + 1 else 0) :: runIdx (some k) (if some k = none then 0 + 1 else 0) ks := by
    simp [runIdx]
  rw [this, if_neg (by simp)]
  simp


/-! ### Claim theorems -/

/-- C1, counterexample: the claimed collision-freedom is false.  On the
input `chunksABA` — three distinct chunks (distinct texts) whose
`(source, page)` pair `(srcA, 1)` recurs after an intervening chunk of a
different source — the first and third output chunks both receive the id
`"docA:1:0"`.  Moreover the id is keyed on the seventh path component,
not on the full source string: on `chunksDistinctSources`, whose three
sources are pairwise distinct (so every `(source, page)` group is a
single consecutive run), the first and third chunks — different files
of the same directory — also both receive `"docA:1:0"`. -/
theorem calc_ids_collision_cex :
    ((calculate_chunk_ids chunksABA).map (List.map (fun c => c.metadata.id))
        = .ok [some "docA:1:0", some "docB:1:0", some "docA:1:0"]
      ∧ (calculate_chunk_ids chunksABA).map (List.map (fun c => c.pageContent))
        = .ok ["t1", "t2", "t3"])
      ∧ ((calculate_chunk_ids chunksDistinctSources).map (List.map (fun c => c.metadata.id))
        = .ok [some "docA:1:0", some "docB:1:0", some "docA:1:0"]
      ∧ (calculate_chunk_ids chunksDistinctSources).map (List.map (fun c => c.metadata.source))
        = .ok [some srcA, some srcB, some srcA2]
      ∧ srcA ≠ srcA2) := by
  exact ⟨⟨rfl, rfl⟩, rfl, rfl, by decide⟩

/-- C1 (amended): each assigned id is `"{label}:{page}:{k}"` where
`label` is the seventh backslash-separated component of the source and
`k` is the index within the current run of consecutive chunks sharing
the same page key `"{label}:{page}"`; when chunks with equal page keys
occur only consecutively in the input (`Grouped` key list) — grouping
by the label, not by the full source — the assigned ids are pairwise
distinct. -/
theorem calc_ids_grouped_collision_free (cs out : List Chunk) (ks : List String)
    (hok : calculate_chunk_ids cs = .ok out) (hks : keysOf cs = .ok ks)
    (hg : Grouped ks) :
    out.map (fun c => c.metadata.id) = (idsFromKeys ks).map some
      ∧ (out.map (fun c => c.metadata.id)).Nodup := by
  obtain ⟨ks2, hks2, heq⟩ := calcAux_ids cs none 0 out hok
  rw [hks] at hks2
  have hkk : ks = ks2 := by injection hks2
  subst hkk
  constructor
  · exact heq
  · rw [heq]
    exact ((idsFromKeys_nodup ks hg).map (fun x y => by simp))

/-- C1 witness: the amended theorem applied to the grouped input
`chunksGrouped`. -/
theorem calc_ids_grouped_collision_free_witness :
    groupedOut.map (fun c => c.metadata.id) = (idsFromKeys groupedKs).map some
      ∧ (groupedOut.map (fun c => c.metadata.id)).Nodup :=
  calc_ids_grouped_collision_free chunksGrouped groupedOut groupedKs (by rfl) (by rfl)
    (by
      intro k hk j hj i hi h
      simp only [groupedKs, List.length_cons, List.length_nil] at hk
      interval_cases k <;> interval_cases j <;> interval_cases i <;>
        revert h <;> decide)

/-- C3, counterexample: on the spec's example input the fourth chunk is
assigned `docA:1:0`, not `docA:1:2` — the sequence index restarts
whenever the page key differs from the immediately preceding chunk's,
so a recurring `(source, page)` pair does not resume its count. -/
theorem calc_ids_example_cex :
    (calculate_chunk_ids chunksAABA).map (List.map (fun c => c.metadata.id))
        = .ok [some "docA:1:0", some "docA:1:1", some "docB:1:0", some "docA:1:0"]
      ∧ (calculate_chunk_ids chunksAABA).map (List.map (fun c => c.metadata.id))
        ≠ .ok [some "docA:1:0", some "docA:1:1", some "docB:1:0", some "docA:1:2"] := by
  constructor
  · rfl
  · intro h
    have h2 : (Except.ok [some "docA:1:0", some "docA:1:1", some "docB:1:0", some "docA:1:0"]
          : Except PyError (List (Option String)))
        = .ok [some "docA:1:0", some "docA:1:1", some "docB:1:0", some "docA:1:2"] := by
      rw [← h]
      rfl
    injection h2 with h3
    exact absurd h3 (by decide)

/-- C3 (amended): the sequence index of the first chunk is 0; for every
later chunk it resets to 0 exactly when the page key changes relative
to the immediately preceding chunk and increments by one otherwise; the
assigned ids are `"{key}:{index}"` for this index sequence.  On the
spec's example input the resulting ids are `docA:1:0, docA:1:1,
docB:1:0, docA:1:0`. -/
theorem calc_ids_reset_rule (cs out : List Chunk) (ks : List String)
    (hok : calculate_chunk_ids cs = .ok out) (hks : keysOf cs = .ok ks) :
    out.map (fun c => c.metadata.id) = (idsFromKeys ks).map some
      ∧ (∀ k0 ks0, ks = k0 :: ks0 → (runIdx none 0 ks)[0]? = some 0)
      ∧ (∀ i : Nat, i + 1 < ks.length →
          (runIdx none 0 ks)[i + 1]?
            = some (if ks[i + 1]? = ks[i]? then ((runIdx none 0 ks)[i]?).getD 0 + 1
                    else 0)) := by
  obtain ⟨ks2, hks2, heq⟩ := calcAux_ids cs none 0 out hok
  rw [hks] at hks2
  have hkk : ks = ks2 := by injection hks2
  subst hkk
  refine ⟨heq, ?_, fun i h => runIdx_succ ks none 0 i h⟩
  rintro k0 ks0 rfl
  exact runIdx_zero k0 ks0

/-- C3 witness: the amended theorem applied to the spec's example
input. -/
theorem calc_ids_reset_rule_witness :
    exOut.map (fun c => c.metadata.id) = (idsFromKeys exKs).map some
      ∧ (∀ k0 ks0, exKs = k0 :: ks0 → (runIdx none 0 exKs)[0]? = some 0)
      ∧ (∀ i : Nat, i + 1 < exKs.length →
          (runIdx none 0 exKs)[i + 1]?
            = some (if exKs[i + 1]? = exKs[i]? then ((runIdx none 0 exKs)[i]?).getD 0 + 1
                    else 0)) :=
  calc_ids_reset_rule chunksAABA exOut exKs (by rfl) (by rfl)

/-- C6, counterexample: a chunk with `page` metadata absent does not
make id assignment fail; it succeeds and silently embeds the string
`"None"` as the page component of the id. -/
theorem calc_ids_missing_page_cex :
    calculate_chunk_ids [chunkNoPage]
      = .ok [{ pageContent := "t1"
               metadata := { source := some srcA, page := none,
                             id := some "docA:None:0" } }] := by
  rfl

/-- C6 (amended): when a chunk's `page` metadata is absent (and its
source is well-formed), id assignment does not fail: it produces the id
`"{label}:None:0"`, with the literal string `None` as page component. -/
theorem calc_ids_missing_page_silent (c : Chunk) (s : String) (lab : List Char)
    (hp : c.metadata.page = none)
    (hs : c.metadata.source = some s)
    (hl : (splitChar '\\' s.data)[6]? = some lab) :
    calculate_chunk_ids [c]
      = .ok [{ c with metadata := { c.metadata with
          id := some (String.mk lab ++ ":" ++ "None" ++ ":" ++ natStr 0) } }] := by
  have hk : pageKey c = .ok (String.mk lab ++ ":" ++ "None") := by
    unfold pageKey
    rw [hs]
    simp only [hl, hp, pyStrOptNat]
  show calcAux none 0 [c] = _
  rw [calcAux_cons, hk, except_bind_ok]
  have : calcAux (some (String.mk lab ++ ":" ++ "None"))
      (if some (String.mk lab ++ ":" ++ "None") = none then 0 + 1 else 0) [] = .ok [] := rfl
  rw [this, except_map_ok, if_neg (by simp)]
  rfl

/-- C6 witness: the amended theorem applied to `chunkNoPage`. -/
theorem calc_ids_missing_page_silent_witness :
    calculate_chunk_ids [chunkNoPage]
      = .ok [{ chunkNoPage with metadata := { chunkNoPage.metadata with
          id := some (String.mk ['d', 'o', 'c', 'A'] ++ ":" ++ "None" ++ ":" ++ natStr 0) } }] :=
  calc_ids_missing_page_silent chunkNoPage srcA ['d', 'o', 'c', 'A'] (by rfl) (by rfl) (by rfl)

/-- C9: id assignment is deterministic (it is a pure function of the
input sequence), and re-running it on the output of a successful run
reproduces exactly the same chunks and ids. -/
theorem calc_ids_idempotent (cs out : List Chunk)
    (h : calculate_chunk_ids cs = .ok out) :
    calculate_chunk_ids out = .ok out :=
  calcAux_idem cs none 0 out h

/-- C9 witness: re-running id assignment on the output for
`[chunkOne]`. -/
theorem calc_ids_idempotent_witness :
    calculate_chunk_ids [chunkOneWithId] = .ok [chunkOneWithId] :=
  calc_ids_idempotent [chunkOne] [chunkOneWithId] (by rfl)

/-- C10: id assignment succeeds exactly when every chunk's `source`
metadata is present and splits on backslashes into at least seven
components (the label being the component at index 6); a missing source
or one with fewer components makes the whole assignment fail. -/
theorem calc_ids_ok_iff_source_components (cs : List Chunk) :
    (∃ out : List Chunk, calculate_chunk_ids cs = .ok out)
      ↔ ∀ c ∈ cs, ∃ s : String, c.metadata.source = some s
          ∧ 7 ≤ (splitChar '\\' s.data).length := by
  unfold calculate_chunk_ids
  rw [calcAux_ok_iff cs none 0]
  constructor
  · intro h c hc
    exact (pageKey_ok_iff c).mp (h c hc)
  · intro h c hc
    exact (pageKey_ok_iff c).mpr (h c hc)

/-- C2: indexing is idempotent.  If a first `add_to_chroma` run over a
chunk list succeeds against a store whose ids are distinct, then a
second run with the identical chunk list against the resulting store
adds zero entries, leaves the store unchanged, and the store still has
at most one entry per id. -/
theorem add_to_chroma_idempotent (db : Store) (cs : List Chunk) (a1 a2 : AddResult)
    (hnd : (db.map Prod.fst).Nodup)
    (h1 : add_to_chroma db cs = .ok a1)
    (h2 : add_to_chroma a1.store cs = .ok a2) :
    a2.added = 0 ∧ a2.store = a1.store ∧ (a2.store.map Prod.fst).Nodup := by
  obtain ⟨outs2, new2, hc2, hs2, hadd2, _, _, hdisj2⟩ :=
    add_to_chroma_ok_elim a1.store cs a2 h2
  have hcov := add_to_chroma_covers db cs a1 outs2 h1 hc2
  have hempty : selectNew (a1.store.map Prod.fst) outs2 = .ok [] :=
    selectNew_all_present _ _ hcov
  rw [hs2] at hempty
  have hnew2 : new2 = [] := by injection hempty
  subst hnew2
  have hstore : a2.store = a1.store := by
    rcases hdisj2 with ⟨_, hst⟩ | ⟨ids, hg, hst⟩
    · exact hst
    · have hids : ids = [] := by
        simp only [getIds] at hg
        injection hg.symm
      subst hids
      exact hst
  have hnd1 : (a1.store.map Prod.fst).Nodup := add_to_chroma_nodup db cs a1 hnd h1
  exact ⟨by rw [hadd2]; rfl, hstore, by rw [hstore]; exact hnd1⟩

/-- C2 witness: indexing `[chunkOne]` into the empty store and then
again into the resulting store. -/
theorem add_to_chroma_idempotent_witness :
    addResult2.added = 0 ∧ addResult2.store = addResult1.store
      ∧ (addResult2.store.map Prod.fst).Nodup :=
  add_to_chroma_idempotent [] [chunkOne] addResult1 addResult2 (by decide)
    (by rfl) (by rfl)

/-- C4, counterexample: `add_to_chroma` does not return the count of
newly added entries.  Indexing one new chunk into an empty store adds
one entry, yet the Python return value of the call is `None`, not that
count. -/
theorem add_to_chroma_return_cex :
    (add_to_chroma [] [chunkOne]).map (fun a => a.returned) = .ok none
      ∧ (add_to_chroma [] [chunkOne]).map (fun a => a.added) = .ok 1
      ∧ (add_to_chroma [] [chunkOne]).map (fun a => a.returned) ≠ .ok (some 1) := by
  refine ⟨rfl, rfl, ?_⟩
  intro h
  have h2 : (Except.ok (none : Option Nat) : Except PyError (Option Nat)) = .ok (some 1) := by
    rw [← h]
    rfl
  injection h2 with h3
  exact absurd h3 (by decide)

/-- C4 (amended): `add_to_chroma` (1) reads the set of existing ids
from the store, (2) keeps exactly the chunks whose assigned id is not
in that set, (3) upserts exactly those chunks under their ids, and (4)
reports the count of newly added entries in its printed output while
returning no value (`None`). -/
theorem add_to_chroma_spec (db : Store) (cs : List Chunk) (a : AddResult)
    (outs : List Chunk)
    (h : add_to_chroma db cs = .ok a) (hc : calculate_chunk_ids cs = .ok outs) :
    a.added = (newChunksOf db outs).length
      ∧ a.store = addDocuments db
          ((newChunksOf db outs).map (fun c => (c.metadata.id.getD "", c)))
      ∧ a.returned = none
      ∧ (if (newChunksOf db outs).length ≠ 0 then
            "adding new documents: " ++ natStr (newChunksOf db outs).length
          else "There are no new documents to add") ∈ a.logs := by
  obtain ⟨outs2, new2, hc2, hs2, hadd, hret, hlogs, hdisj⟩ :=
    add_to_chroma_ok_elim db cs a h
  rw [hc] at hc2
  have houts : outs = outs2 := by injection hc2
  subst houts
  have hfil : new2 = newChunksOf db outs := selectNew_filter _ _ _ hs2
  subst hfil
  refine ⟨hadd, ?_, hret, ?_⟩
  · rcases hdisj with ⟨hemp, hst⟩ | ⟨ids, hg, hst⟩
    · rw [hst, hemp]
      rfl
    · rw [hst, getIds_zip_eq _ ids hg]
  · rw [hlogs]
    simp

/-- C4 witness: the amended theorem applied to indexing `[chunkOne]`
into the empty store. -/
theorem add_to_chroma_spec_witness :
    addResult1.added = (newChunksOf [] [chunkOneWithId]).length
      ∧ addResult1.store = addDocuments []
          ((newChunksOf [] [chunkOneWithId]).map (fun c => (c.metadata.id.getD "", c)))
      ∧ addResult1.returned = none
      ∧ (if (newChunksOf [] [chunkOneWithId]).length ≠ 0 then
            "adding new documents: " ++ natStr (newChunksOf [] [chunkOneWithId]).length
          else "There are no new documents to add") ∈ addResult1.logs :=
  add_to_chroma_spec [] [chunkOne] addResult1 [chunkOneWithId] (by rfl) (by rfl)

/-- C5: context assembly preserves retrieval rank order.  For any
search results, the context is the join of the result texts with the
fixed separator in exactly the returned order, and for ranked results
`[a, b, c]` the context is literally `a`'s text, then the separator,
then `b`'s text, then the separator, then `c`'s text. -/
theorem query_context_order (q : String) (g : String → String)
    (a b c : RetrievedDoc) :
    (∀ rs : List RetrievedDoc, (query_rag q rs g).contextText
        = pyJoin contextSeparator (rs.map (fun d => d.pageContent)))
      ∧ (query_rag q [a, b, c] g).contextText
        = a.pageContent ++ contextSeparator ++ b.pageContent
            ++ contextSeparator ++ c.pageContent := by
  refine ⟨fun rs => rfl, ?_⟩
  show pyJoin contextSeparator [a.pageContent, b.pageContent, c.pageContent] = _
  simp only [pyJoin, String.append_assoc]

/-- C7, counterexample: the sources list is not part of the return
value of `query_rag`.  Two calls whose retrieved documents carry
different id metadata (but the same text) produce identical return
values while their printed source lists differ — impossible if the
ordered source-id list were returned. -/
theorem query_rag_return_cex :
    (query_rag "q" [docX] (fun _ => "ans")).returned
        = (query_rag "q" [docY] (fun _ => "ans")).returned
      ∧ (query_rag "q" [docX] (fun _ => "ans")).printedSources
        ≠ (query_rag "q" [docY] (fun _ => "ans")).printedSources := by
  exact ⟨rfl, by decide⟩

/-- C7 (amended): `query_rag` computes the ordered list of source ids
drawn from each retrieved result's metadata, in exactly the order of
the results (the order their texts appear in the context), and prints
it; the function's return value is the generated response text alone. -/
theorem query_rag_sources_order (q : String) (rs : List RetrievedDoc)
    (g : String → String) :
    (query_rag q rs g).printedSources = rs.map (fun d => d.metaId)
      ∧ (∀ i : Nat, (query_rag q rs g).printedSources[i]?
          = (rs[i]?).map (fun d => d.metaId))
      ∧ (query_rag q rs g).returned = (query_rag q rs g).response
      ∧ (query_rag q rs g).response = g ((query_rag q rs g).prompt) := by
  refine ⟨rfl, fun i => ?_, rfl, rfl⟩
  show (rs.map (fun d => d.metaId))[i]? = _
  rw [List.getElem?_map]

/-- C8: with zero retrieved results the context is the empty string,
the prompt template still renders around that empty context, the
generator is called on the rendered prompt, and the call completes,
returning the generated text, with an empty source list. -/
theorem query_rag_empty_results (q : String) (g : String → String) :
    (query_rag q [] g).contextText = ""
      ∧ (query_rag q [] g).prompt
        = promptTemplateBefore ++ promptTemplateBetween ++ q ++ promptTemplateAfter
      ∧ (query_rag q [] g).returned = g ((query_rag q [] g).prompt)
      ∧ (query_rag q [] g).printedSources = [] := by
  refine ⟨rfl, ?_, rfl, rfl⟩
  show formatPrompt (pyJoin contextSeparator []) q = _
  simp only [pyJoin, formatPrompt, String.append_empty]

end VirtualRAG
